import Mathlib

/-!
Verification of the mailbox poll-and-extract utility.

The development shallowly embeds the three source files of the repository:

* `utils/gmailHelpers.ts` — the address normalizer `normalizeGmail`, the URL
  extractor `extractLinks`, and the polling engine
  `waitAndExtractUrlByRecipient` (modelled by `runEngine`);
* `utils/gmailClient.ts` — the gateway `fetchEmails`: its degraded-search
  retry cascade (`searchWithRetries`) and its per-message processing loop
  (`collectResults`).

JavaScript strings are modelled as Lean `String`/`List Char`; JS numbers
holding integral millisecond timestamps are modelled as `Int`; absent
(`undefined`) fields are modelled as `Option`.  `toLowerCase` is modelled on
the ASCII range, the only range the repository's comparisons exercise.
Asynchrony is modelled by an explicit clock: the gateway response of each
poll cycle and the wall-clock time each fetch consumes are inputs
(`gw`, `dur`), and the engine's recursion carries fuel so that it stays a
total function; fuel exhaustion (`none`) models non-termination and never
occurs for any fuel larger than the number of poll cycles the deadline
admits.
-/

namespace GmailFetch

deriving instance DecidableEq for Except

/-- The JS whitespace class (the regexp class `\s` and
`String.prototype.trim`): tab, LF, VT, FF, CR, space, NBSP and the Unicode
space separators. -/
def isJsWs (c : Char) : Bool :=
  c.toNat = 9 || c.toNat = 10 || c.toNat = 11 || c.toNat = 12 || c.toNat = 13 ||
  c.toNat = 32 || c.toNat = 0xa0 || c.toNat = 0x1680 ||
  (0x2000 ≤ c.toNat && c.toNat ≤ 0x200a) ||
  c.toNat = 0x2028 || c.toNat = 0x2029 || c.toNat = 0x202f ||
  c.toNat = 0x205f || c.toNat = 0x3000 || c.toNat = 0xfeff

/-- One character of `String.prototype.toLowerCase`, on the ASCII range. -/
def lowerChar (c : Char) : Char :=
  if 65 ≤ c.toNat ∧ c.toNat ≤ 90 then Char.ofNat (c.toNat + 32) else c

/-- JS `String.prototype.toLowerCase` over a character list. -/
def lowerList (l : List Char) : List Char := l.map lowerChar

/-- JS `String.prototype.toLowerCase` over a string. -/
def lowerStr (s : String) : String := ⟨lowerList s.data⟩

/-- JS `String.prototype.trim`: whitespace removed from both ends. -/
def trimList (l : List Char) : List Char :=
  ((l.dropWhile isJsWs).reverse.dropWhile isJsWs).reverse

/-- The composite `.trim().toLowerCase()` — the preprocessing both normalizer branches
share. -/
def prep (l : List Char) : List Char := lowerList (trimList l)

/-- JS `String.prototype.split` with a one-character separator string: every
occurrence of the separator splits, empty chunks are kept (`"a@@b"` splits
into `a`, `""`, `b`; the empty string yields one empty chunk). -/
def splitOnChar (sep : Char) : List Char → List (List Char)
  | [] => [[]]
  | c :: rest =>
    if c = sep then [] :: splitOnChar sep rest
    else
      match splitOnChar sep rest with
      | t :: ts => (c :: t) :: ts
      | [] => [[c]]

/-- JS `String.prototype.split` with a regexp of the form `[…]+`: maximal runs
of separator characters split, so adjacent separators produce no empty
chunk, but a separator run touching either end of the string yields an
empty chunk there (matching the JS semantics used for `to.split(/[,\s]+/)`). -/
def splitRuns (p : Char → Bool) : List Char → List (List Char)
  | [] => [[]]
  | c :: rest =>
    let ts := splitRuns p rest
    if p c then
      match rest with
      | r :: _ => if p r then ts else [] :: ts
      | [] => [] :: ts
    else
      match ts with
      | t :: ts2 => (c :: t) :: ts2
      | [] => [[c]]

/-- JS `String.prototype.includes`: contiguous-substring test over char
lists. -/
def hasSub (hay needle : List Char) : Bool :=
  hay.tails.any (fun t => needle.isPrefixOf t)

/-- JS `String.prototype.includes` over strings. -/
def strIncludes (hay needle : String) : Bool := hasSub hay.data needle.data

/-- The body of `normalizeGmail` after `.trim().toLowerCase()`
(`utils/gmailHelpers.ts` lines 5–13): if no `@` is present the string is
returned unchanged; otherwise `const [local, domain] = lower.split("@")`
destructures the split into its first two components, and for the two
Gmail domains the address is rebuilt from the local part truncated at its
first `+`. -/
def normalizeCore (lower : List Char) : List Char :=
  if lower.contains '@' = false then lower
  else if ((splitOnChar '@' lower).drop 1).headD [] = "gmail.com".data ∨
      ((splitOnChar '@' lower).drop 1).headD [] = "googlemail.com".data then
    (splitOnChar '+' ((splitOnChar '@' lower).headD [])).headD [] ++
      '@' :: ((splitOnChar '@' lower).drop 1).headD []
  else lower

/-- Source: `utils/gmailHelpers.ts`, `normalizeGmail`. -/
def normalizeGmail (addr : String) : String :=
  ⟨normalizeCore (lowerList (trimList addr.data))⟩

/-- The normalizer as the specification words it ("Split at the first `@`
into local-part and domain"): the domain is everything after the first
`@`, not merely the segment between the first and second `@`.  Stated for
refinement comparison against `normalizeGmail`. -/
def normSpec (addr : String) : String :=
  let lower := lowerList (trimList addr.data)
  if lower.contains '@' = false then ⟨lower⟩
  else
    let localPart := lower.takeWhile (fun c => c ≠ '@')
    let domain := (lower.dropWhile (fun c => c ≠ '@')).tail
    if domain = "gmail.com".data ∨ domain = "googlemail.com".data then
      ⟨localPart.takeWhile (fun c => c ≠ '+') ++ '@' :: domain⟩
    else ⟨lower⟩

/-- The negated character class `[^\s<>"')]` of the URL regexp in
`extractLinks`: a URL token may not contain whitespace, angle brackets,
straight quotes or a closing parenthesis. -/
def isUrlStop (c : Char) : Bool :=
  isJsWs c || c = '<' || c = '>' || c = '"' || c = '\'' || c = ')'

/-- The class `[),.;\]\>"']` whose trailing run `extractLinks` strips from
each raw match. -/
def isTrailStrip (c : Char) : Bool :=
  c = ')' || c = ',' || c = '.' || c = ';' || c = ']' || c = '>' ||
  c = '"' || c = '\''

/-- Strip the trailing run of `isTrailStrip` characters
(`m[0].replace(/[),.;\]\>"']+$/g, "")`). -/
def stripTrail (l : List Char) : List Char :=
  (l.reverse.dropWhile isTrailStrip).reverse

/-- The strip class as claim C2 words it: additionally the four curly
quotes.  Stated for refinement comparison against `isTrailStrip`. -/
def isTrailStripSpec (c : Char) : Bool :=
  isTrailStrip c || c = '‘' || c = '’' || c = '“' || c = '”'

/-- Trailing-run stripping with the claim's character class. -/
def stripTrailSpec (l : List Char) : List Char :=
  (l.reverse.dropWhile isTrailStripSpec).reverse

/-- The regexp word class `\w` (for the `\b` boundary before `http`). -/
def isWordChar (c : Char) : Bool :=
  (65 ≤ c.toNat && c.toNat ≤ 90) || (97 ≤ c.toNat && c.toNat ≤ 122) ||
  (48 ≤ c.toNat && c.toNat ≤ 57) || c = '_'

/-- Match the scheme part `https?:\/\/` (case-insensitive letters) at the
head of the list, returning the consumed characters (in source case) and
the remainder. -/
def matchScheme : List Char → Option (List Char × List Char)
  | c1 :: c2 :: c3 :: c4 :: rest =>
    if lowerChar c1 = 'h' && lowerChar c2 = 't' && lowerChar c3 = 't' &&
        lowerChar c4 = 'p' then
      match rest with
      | c5 :: c6 :: c7 :: c8 :: rest2 =>
        if lowerChar c5 = 's' && c6 = ':' && c7 = '/' && c8 = '/' then
          some ([c1, c2, c3, c4, c5, c6, c7, c8], rest2)
        else if c5 = ':' && c6 = '/' && c7 = '/' then
          some ([c1, c2, c3, c4, c5, c6, c7], c8 :: rest2)
        else none
      | [c5, c6, c7] =>
        if c5 = ':' && c6 = '/' && c7 = '/' then
          some ([c1, c2, c3, c4, c5, c6, c7], [])
        else none
      | _ => none
    else none
  | _ => none

/-- One attempted match of `\bhttps?:\/\/[^\s<>"')]+` at the current
position (the boundary test is done by the caller): the scheme followed by
a maximal nonempty run of non-stop characters. -/
def tryMatch (cs : List Char) : Option (List Char × List Char) :=
  match matchScheme cs with
  | none => none
  | some (scheme, rest) =>
    let run := rest.takeWhile (fun c => !(isUrlStop c))
    if run.isEmpty then none
    else some (scheme ++ run, rest.dropWhile (fun c => !(isUrlStop c)))

/-- The global-regexp scan of `re.exec` in a loop: walk the text left to
right, attempt a match at every position preceded by a word boundary, and
resume after each match.  `prev` is the character before the current
position (`none` at the start of the text); `fuel` only bounds the
recursion and is immaterial whenever it is at least the length of the
text, since every step consumes at least one character. -/
def scanLinks : Nat → Option Char → List Char → List (List Char)
  | _, _, [] => []
  | 0, _, _ :: _ => []
  | fuel + 1, prev, c :: rest =>
    if (match prev with | none => true | some p => !(isWordChar p)) then
      match tryMatch (c :: rest) with
      | some (m, rest2) => m :: scanLinks fuel (some (m.getLastD c)) rest2
      | none => scanLinks fuel (some c) rest
    else scanLinks fuel (some c) rest

/-- The insertion-ordered `Set<string>` of `extractLinks`: keep a value
only if it has not been seen before. -/
def dedupAux : List (List Char) → List (List Char) → List (List Char)
  | _, [] => []
  | seen, x :: rest =>
    if x ∈ seen then dedupAux seen rest
    else x :: dedupAux (x :: seen) rest

/-- Source: `utils/gmailHelpers.ts`, `extractLinks` (lines 16–24): scan for
`\bhttps?:\/\/[^\s<>"')]+` matches, strip each match's trailing
punctuation run, and collect into an insertion-ordered set. -/
def extractLinks (src : String) : List String :=
  (dedupAux [] ((scanLinks src.data.length none src.data).map stripTrail)).map
    (fun l => (⟨l⟩ : String))

/-- Variant: `extractLinks` with the claim's strip class (curly quotes included).
Stated for refinement comparison against `extractLinks`. -/
def extractLinksSpecStrip (src : String) : List String :=
  (dedupAux []
      ((scanLinks src.data.length none src.data).map stripTrailSpec)).map
    (fun l => (⟨l⟩ : String))

/-- First-occurrence deduplication, stated declaratively: keep the head,
then recurse on the tail with all copies of the head removed.  `fuel`
bounds the recursion and is immaterial whenever it is at least the length
of the list. -/
def keepFirsts : Nat → List (List Char) → List (List Char)
  | _, [] => []
  | 0, l => l
  | fuel + 1, x :: rest => x :: keepFirsts fuel (rest.filter (fun y => y ≠ x))

/-- A message as the polling engine reads it: the optional fields the
engine accesses on each element of the gateway's response
(`utils/gmailHelpers.ts` lines 64–95). -/
structure Msg where
  internalDateMs : Option Int
  date : Option Int
  subject : Option String
  toAddresses : List String
  toHeader : Option String
  text : Option String
  htmlAsText : Option String
deriving DecidableEq

/-- The primary sort key `Number(a.internalDateMs ?? 0)`. -/
def sortKeyPrimary (m : Msg) : Int := m.internalDateMs.getD 0

/-- The fallback sort key `a.date ? new Date(a.date).getTime() : 0`
(the parsed `date` is modelled as its millisecond value). -/
def sortKeyFallback (m : Msg) : Int := m.date.getD 0

/-- The sort comparator of the poll loop (lines 83–90): `newer a b` holds
when the comparator orders `a` strictly before `b`, i.e. when
`b`'s primary key is strictly smaller, or the primary keys are equal and
`b`'s fallback key is strictly smaller. -/
def newer (a b : Msg) : Bool :=
  if sortKeyPrimary b ≠ sortKeyPrimary a then sortKeyPrimary b < sortKeyPrimary a
  else sortKeyFallback b < sortKeyFallback a

/-- Stable insertion with respect to the comparator: an element keeps its
input-order position among comparator-equal elements, matching the
stability guarantee of JS `Array.prototype.sort`. -/
def insertNewer (a : Msg) : List Msg → List Msg
  | [] => [a]
  | b :: rest => if newer b a then b :: insertNewer a rest else a :: b :: rest

/-- Stable sort by the comparator (`[...candidates].sort(...)`). -/
def sortNewer (l : List Msg) : List Msg := l.foldr insertNewer []

/-- The selected "latest" message: `([...candidates].sort(cmp))[0]`. -/
def selectLatest (l : List Msg) : Option Msg := (sortNewer l).head?

/-- The specification's effective timestamp: `receivedAtPrimary` if
present and nonzero, else the parsed `receivedAtFallback`, else zero. -/
def effTimestamp (m : Msg) : Int :=
  match m.internalDateMs with
  | some p => if p ≠ 0 then p else m.date.getD 0
  | none => m.date.getD 0

/-- The earliest maximum of a list under the comparator: keep the earlier
element unless a strictly newer one occurs later. -/
def firstMax : List Msg → Option Msg
  | [] => none
  | a :: rest =>
    match firstMax rest with
    | none => some a
    | some b => if newer b a then some b else some a

/-- The recipient list the filter works on (lines 67–72): `toAddresses`
when nonempty, else the raw `to` header split on runs of commas and
whitespace, else empty. -/
def toAddrsOf (e : Msg) : List String :=
  if e.toAddresses.length ≠ 0 then e.toAddresses
  else
    match e.toHeader with
    | some t => (splitRuns (fun c => c = ',' || isJsWs c) t.data).map
        (fun l => (⟨l⟩ : String))
    | none => []

/-- The candidate predicate of the poll loop (lines 64–79): the lowercased
subject contains the subject needle, and the normalized recipient list
contains the normalized target or the lowercased raw `to` header contains
it as a substring. -/
def qualifies (targetRecipient subjectNeedle : String) (e : Msg) : Bool :=
  strIncludes (lowerStr (e.subject.getD "")) subjectNeedle &&
  (((toAddrsOf e).map normalizeGmail).contains targetRecipient ||
    strIncludes (lowerStr (e.toHeader.getD "")) targetRecipient)

/-- The candidate predicate as claim C5 words it: the recipient-address
check consults the summary's own `recipientAddresses` list (no fallback
that splits the raw header into addresses).  Stated for refinement
comparison against `qualifies`. -/
def qualSpec (targetRecipient subjectNeedle : String) (e : Msg) : Bool :=
  strIncludes (lowerStr (e.subject.getD "")) subjectNeedle &&
  ((e.toAddresses.map normalizeGmail).contains targetRecipient ||
    strIncludes (lowerStr (e.toHeader.getD "")) targetRecipient)

/-- JS truthiness fallback `(o && String(o)) || d`: an absent or empty
string falls through to the default. -/
def truthyOr (o : Option String) (d : String) : String :=
  match o with
  | some s => if s = "" then d else s
  | none => d

/-- The body pick of lines 92–95: `htmlAsText` when nonempty, else `text`
when nonempty, else the empty string. -/
def bodyOf (m : Msg) : String := truthyOr m.htmlAsText (truthyOr m.text "")

/-- One poll cycle after the gateway response arrives (lines 64–100):
filter to candidates, select the latest, extract links from its body, and
return the first link whose lowercased form contains the URL needle. -/
def pollCycle (targetRecipient subjectNeedle urlNeedle : String)
    (emails : List Msg) : Option String :=
  match selectLatest (emails.filter (qualifies targetRecipient subjectNeedle)) with
  | none => none
  | some latest =>
    (extractLinks (bodyOf latest)).find? (fun u => strIncludes (lowerStr u) urlNeedle)

/-- The `Error` message thrown on deadline exhaustion (lines 106–108). -/
def timeoutMessage (timeoutSeconds : Int)
    (urlKeyword recipientEmail subjectKeyword : String) : String :=
  "Timed out after " ++ toString timeoutSeconds ++
  "s: no URL containing \"" ++ urlKeyword ++ "\" found for \"" ++
  recipientEmail ++ "\" with subject containing \"" ++ subjectKeyword ++ "\"."

/-- The loop-invariant context of one `waitAndExtractUrlByRecipient` call:
the gateway's response per cycle (`gw`), the wall-clock milliseconds each
fetch consumes (`dur`), the poll interval, the needles computed once at
entry, the original diagnostic inputs, and the deadline. -/
structure LoopCtx where
  gw : Nat → List Msg
  dur : Nat → Int
  pollIntervalMs : Int
  targetRecipient : String
  subjectNeedle : String
  urlNeedle : String
  timeoutSeconds : Int
  urlKeyword : String
  recipientEmail : String
  subjectKeyword : String
  deadline : Int

/-- The `while (Date.now() < deadline)` loop (lines 53–104): at each
iteration whose entry time is before the deadline, fetch, run the cycle,
and on failure sleep for the poll interval; on loop exit throw the timeout
error.  The value is `(outcome, number of gateway queries made)`; `none`
models fuel exhaustion and never occurs for sufficient fuel. -/
def runLoop (ctx : LoopCtx) : Nat → Int → Nat → Option (Except String String × Nat)
  | 0, now, k =>
    if now < ctx.deadline then none
    else some (.error (timeoutMessage ctx.timeoutSeconds ctx.urlKeyword
      ctx.recipientEmail ctx.subjectKeyword), k)
  | fuel + 1, now, k =>
    if now < ctx.deadline then
      match pollCycle ctx.targetRecipient ctx.subjectNeedle ctx.urlNeedle (ctx.gw k) with
      | some url => some (.ok url, k + 1)
      | none => runLoop ctx fuel (now + ctx.dur k + ctx.pollIntervalMs) (k + 1)
    else some (.error (timeoutMessage ctx.timeoutSeconds ctx.urlKeyword
      ctx.recipientEmail ctx.subjectKeyword), k)

/-- Source: `utils/gmailHelpers.ts`, `waitAndExtractUrlByRecipient` (lines 36–109):
compute the deadline from the entry time `t0`, normalize the recipient and
lowercase the needles once, and run the poll loop.  The mailbox option is
received but reaches only the gateway call, which `gw` abstracts. -/
def runEngine (recipientEmail subjectKeyword urlKeyword : String)
    (timeoutSeconds pollIntervalMs : Int) (mailbox : String)
    (gw : Nat → List Msg) (dur : Nat → Int) (t0 : Int) (fuel : Nat) :
    Option (Except String String × Nat) :=
  runLoop
    ⟨gw, dur, pollIntervalMs, normalizeGmail recipientEmail,
      lowerStr subjectKeyword, lowerStr urlKeyword, timeoutSeconds,
      urlKeyword, recipientEmail, subjectKeyword,
      t0 + timeoutSeconds * 1000⟩
    fuel t0 0

/-- An IMAP search query as `fetchEmails` builds it: whether the `seen:
false` constraint is present and the optional `since` date. -/
structure SearchQuery where
  unseen : Bool
  since : Option Int
deriving DecidableEq

/-- Source: `utils/gmailClient.ts`, the three-attempt search cascade of
`fetchEmails`: search as requested; if empty and a `since` date was used,
retry without `since` (keeping the unseen constraint) and adopt the result
only if nonempty; if still empty and `unreadOnly` was set, retry
unconstrained and adopt the result only if nonempty. -/
def searchWithRetries (search : SearchQuery → List Nat) (unreadOnly : Bool)
    (sinceDate : Option Int) : List Nat :=
  let u1 := search ⟨unreadOnly, sinceDate⟩
  let u2 :=
    if u1.isEmpty && sinceDate.isSome then
      if (search ⟨unreadOnly, none⟩).isEmpty then u1 else search ⟨unreadOnly, none⟩
    else u1
  let u3 :=
    if u2.isEmpty && unreadOnly then
      if (search ⟨false, none⟩).isEmpty then u2 else search ⟨false, none⟩
    else u2
  u3

/-- Source: `utils/gmailClient.ts`, the per-message loop of `fetchEmails`: process
each UID in order; a processing failure (`.error`, the `catch` branch) or
a filtered-out message (`.ok none`, the `continue` branches) is skipped;
a kept message is pushed, and the loop stops once `limit` results are
collected (the push happens before the `results.length >= limit` check,
so even `limit = 0` yields one result). -/
def collectResults {α β ε : Type} (proc : α → Except ε (Option β)) :
    Nat → List α → List β
  | _, [] => []
  | limit, u :: rest =>
    match proc u with
    | .error _ => collectResults proc limit rest
    | .ok none => collectResults proc limit rest
    | .ok (some e) =>
      if limit ≤ 1 then [e] else e :: collectResults proc (limit - 1) rest

/-! ### Character and string lemmas -/

theorem toNat_ofNat_valid (n : Nat) (h : n < 55296) : (Char.ofNat n).toNat = n := by
  rw [Char.ofNat, dif_pos (Or.inl h)]
  rfl

theorem lowerChar_toNat (c : Char) (h : 65 ≤ c.toNat ∧ c.toNat ≤ 90) :
    (lowerChar c).toNat = c.toNat + 32 := by
  rw [lowerChar, if_pos h]
  exact toNat_ofNat_valid _ (by omega)

theorem lowerChar_of_not (c : Char) (h : ¬ (65 ≤ c.toNat ∧ c.toNat ≤ 90)) :
    lowerChar c = c := by
  rw [lowerChar, if_neg h]

theorem lowerChar_idem (c : Char) : lowerChar (lowerChar c) = lowerChar c := by
  by_cases h : 65 ≤ c.toNat ∧ c.toNat ≤ 90
  · have ht := lowerChar_toNat c h
    exact lowerChar_of_not _ (by omega)
  · rw [lowerChar_of_not c h, lowerChar_of_not c h]

theorem isJsWs_lowerChar (c : Char) : isJsWs (lowerChar c) = isJsWs c := by
  by_cases h : 65 ≤ c.toNat ∧ c.toNat ≤ 90
  · have ht := lowerChar_toNat c h
    have h1 : isJsWs (lowerChar c) = false := by
      simp only [isJsWs, ht, Bool.or_eq_false_iff, Bool.and_eq_false_iff,
        decide_eq_false_iff_not]
      omega
    have h2 : isJsWs c = false := by
      simp only [isJsWs, Bool.or_eq_false_iff, Bool.and_eq_false_iff,
        decide_eq_false_iff_not]
      omega
    rw [h1, h2]
  · rw [lowerChar_of_not c h]

theorem lowerList_idem (l : List Char) : lowerList (lowerList l) = lowerList l := by
  simp only [lowerList, List.map_map]
  exact List.map_congr_left (fun c _ => lowerChar_idem c)

theorem map_id_of_mem {l : List Char} (f : Char → Char) (h : ∀ a ∈ l, f a = a) :
    l.map f = l := by
  induction l with
  | nil => rfl
  | cons c rest ih =>
    simp only [List.map_cons, h c (by simp)]
    rw [ih (fun a ha => h a (by simp [ha]))]

theorem head?_dropWhile_not (p : Char → Bool) (l : List Char) (c : Char)
    (h : (l.dropWhile p).head? = some c) : p c = false := by
  have hne : l.dropWhile p ≠ [] := by
    intro hx
    rw [hx] at h
    simp at h
  have h2 : (l.dropWhile p).head? = some ((l.dropWhile p).head hne) :=
    List.head?_eq_head hne
  rw [h] at h2
  rw [Option.some_inj.mp h2]
  exact List.head_dropWhile_not p l hne

/-- A character surfacing at the head of a trimmed list is not whitespace. -/
theorem trimList_head?_not_ws (l : List Char) (c : Char)
    (h : (trimList l).head? = some c) : isJsWs c = false := by
  have h1 : (trimList l).head? =
      ((l.dropWhile isJsWs).reverse.dropWhile isJsWs).getLast? := by
    rw [trimList, List.head?_reverse]
  obtain ⟨pre, hpre⟩ :=
    List.dropWhile_suffix (l := (l.dropWhile isJsWs).reverse) isJsWs
  have hvne : (l.dropWhile isJsWs).reverse.dropWhile isJsWs ≠ [] := by
    intro hx
    rw [h1, hx] at h
    simp at h
  have h2 : ((l.dropWhile isJsWs).reverse.dropWhile isJsWs).getLast? =
      (l.dropWhile isJsWs).reverse.getLast? := by
    conv_rhs => rw [← hpre]
    exact (List.getLast?_append_of_ne_nil pre hvne).symm
  have h3 : (l.dropWhile isJsWs).reverse.getLast? = (l.dropWhile isJsWs).head? :=
    List.getLast?_reverse _
  have h4 : (l.dropWhile isJsWs).head? = some c := by
    rw [← h3, ← h2, ← h1, h]
  exact head?_dropWhile_not isJsWs l c h4

/-- A character surfacing at the tail end of a trimmed list is not
whitespace. -/
theorem trimList_getLast?_not_ws (l : List Char) (c : Char)
    (h : (trimList l).getLast? = some c) : isJsWs c = false := by
  have h1 : (trimList l).getLast? =
      ((l.dropWhile isJsWs).reverse.dropWhile isJsWs).head? := by
    rw [trimList, List.getLast?_reverse]
  rw [h1] at h
  exact head?_dropWhile_not isJsWs _ c h

/-- A list whose two ends are not whitespace is unchanged by trimming. -/
theorem trimList_eq_self (l : List Char)
    (h1 : ∀ c, l.head? = some c → isJsWs c = false)
    (h2 : ∀ c, l.getLast? = some c → isJsWs c = false) :
    trimList l = l := by
  rcases hl : l with _ | ⟨c, rest⟩
  · rfl
  · have hd : (c :: rest).dropWhile isJsWs = c :: rest := by
      rw [List.dropWhile_cons_of_neg]
      rw [h1 c (by rw [hl]; rfl)]
      simp
    rcases hr : (c :: rest).reverse with _ | ⟨d, rr⟩
    · simp at hr
    · have hdr : (c :: rest).reverse.dropWhile isJsWs = (c :: rest).reverse := by
        rw [hr, List.dropWhile_cons_of_neg]
        have hdl : (c :: rest).getLast? = some d := by
          rw [← List.head?_reverse, hr]
          rfl
        rw [h2 d (by rw [hl]; exact hdl)]
        simp
      rw [trimList, hd, hdr, List.reverse_reverse]

theorem trimList_idem (l : List Char) : trimList (trimList l) = trimList l :=
  trimList_eq_self _ (trimList_head?_not_ws l) (trimList_getLast?_not_ws l)

theorem trimList_lowerList (l : List Char) :
    trimList (lowerList l) = lowerList (trimList l) := by
  have hws : isJsWs ∘ lowerChar = isJsWs := funext isJsWs_lowerChar
  have hd : ∀ m : List Char,
      (lowerList m).dropWhile isJsWs = lowerList (m.dropWhile isJsWs) := by
    intro m
    rw [lowerList, List.dropWhile_map, hws]
    rfl
  rw [trimList, hd, lowerList, ← List.map_reverse, ← lowerList, hd]
  rw [lowerList, ← List.map_reverse]
  rfl

theorem prep_idem (l : List Char) : prep (prep l) = prep l := by
  rw [prep, prep, trimList_lowerList, trimList_idem, lowerList_idem]

/-! ### splitOnChar lemmas -/

theorem splitOnChar_ne_nil (sep : Char) (l : List Char) : splitOnChar sep l ≠ [] := by
  induction l with
  | nil => simp [splitOnChar]
  | cons c rest ih =>
    rw [splitOnChar]
    by_cases h : c = sep
    · simp [h]
    · rw [if_neg h]
      rcases hs : splitOnChar sep rest with _ | ⟨t, ts⟩
      · exact absurd hs ih
      · simp

theorem headD_splitOnChar (sep : Char) (l : List Char) :
    (splitOnChar sep l).headD [] = l.takeWhile (fun c => c ≠ sep) := by
  induction l with
  | nil => rfl
  | cons c rest ih =>
    rw [splitOnChar]
    by_cases h : c = sep
    · subst h
      simp [List.takeWhile_cons]
    · rw [if_neg h]
      rcases hs : splitOnChar sep rest with _ | ⟨t, ts⟩
      · exact absurd hs (splitOnChar_ne_nil sep rest)
      · rw [hs] at ih
        simp only [List.headD_cons] at ih
        rw [List.takeWhile_cons_of_pos (by simpa using h)]
        simp only [List.headD_cons]
        rw [ih]

theorem splitOnChar_of_not_mem (sep : Char) (l : List Char) (h : sep ∉ l) :
    splitOnChar sep l = [l] := by
  induction l with
  | nil => rfl
  | cons c rest ih =>
    have hc : ¬ c = sep := fun he => h (by simp [he])
    rw [splitOnChar, if_neg hc, ih (fun hm => h (by simp [hm]))]

theorem splitOnChar_append (sep : Char) (x d : List Char) (h : sep ∉ x) :
    splitOnChar sep (x ++ sep :: d) = x :: splitOnChar sep d := by
  induction x with
  | nil => simp [splitOnChar]
  | cons c x2 ih =>
    have hc : ¬ c = sep := fun he => h (by simp [he])
    rw [List.cons_append, splitOnChar, if_neg hc,
      ih (fun hm => h (by simp [hm]))]

theorem takeWhile_ne_eq_self (sep : Char) (l : List Char) (h : sep ∉ l) :
    l.takeWhile (fun c => c ≠ sep) = l := by
  induction l with
  | nil => rfl
  | cons c rest ih =>
    have hc : ¬ c = sep := fun he => h (by simp [he])
    rw [List.takeWhile_cons, if_pos (by simpa using hc),
      ih (fun hm => h (by simp [hm]))]

theorem not_mem_takeWhile_ne (sep : Char) (l : List Char) :
    sep ∉ l.takeWhile (fun c => c ≠ sep) := by
  intro hm
  have := List.mem_takeWhile_imp hm
  simp at this

theorem head?_of_starts {p l : List Char} {c : Char} (hp : p <+: l)
    (h : p.head? = some c) : l.head? = some c := by
  obtain ⟨k, rfl⟩ := hp
  rcases p with _ | ⟨e, p2⟩
  · simp at h
  · simpa using h

/-! ### Normalizer stability (claim C6) -/

theorem mem_prep_lower_fixed {L : List Char} (hL : prep L = L) {y : Char}
    (hy : y ∈ L) : lowerChar y = y := by
  rw [← hL] at hy
  simp only [prep, lowerList] at hy
  obtain ⟨z, _, rfl⟩ := List.mem_map.mp hy
  exact lowerChar_idem z

theorem head_prep_not_ws {L : List Char} (hL : prep L = L) {e : Char}
    (he : L.head? = some e) : isJsWs e = false := by
  rcases hh : (trimList L).head? with _ | e2
  · rw [← hL, prep, lowerList, List.head?_map, hh] at he
    simp at he
  · rw [← hL, prep, lowerList, List.head?_map, hh] at he
    have h3 : lowerChar e2 = e := by simpa using he
    rw [← h3, isJsWs_lowerChar]
    exact trimList_head?_not_ws L e2 hh

/-- On an already trimmed-and-lowercased list, `normalizeCore` produces a
list that is itself trimmed-and-lowercased and is a fixed point of
`normalizeCore`. -/
theorem normalizeCore_prepped (L : List Char) (hL : prep L = L) :
    prep (normalizeCore L) = normalizeCore L ∧
      normalizeCore (normalizeCore L) = normalizeCore L := by
  by_cases hc : L.contains '@' = false
  · have h0 : normalizeCore L = L := by rw [normalizeCore, if_pos hc]
    rw [h0]
    exact ⟨hL, h0⟩
  · by_cases hdom : ((splitOnChar '@' L).drop 1).headD [] = "gmail.com".data ∨
        ((splitOnChar '@' L).drop 1).headD [] = "googlemail.com".data
    · -- the Gmail branch: the result is  x ++ '@' :: dom
      rw [normalizeCore, if_neg hc, if_pos hdom]
      set dom := ((splitOnChar '@' L).drop 1).headD [] with hdomdef
      set lp := (splitOnChar '@' L).headD [] with hlpdef
      set x := (splitOnChar '+' lp).headD [] with hxdef
      have hlp_take : lp = L.takeWhile (fun c => c ≠ '@') := headD_splitOnChar '@' L
      have hx_take : x = lp.takeWhile (fun c => c ≠ '+') := headD_splitOnChar '+' lp
      have hx_no_plus : '+' ∉ x := hx_take ▸ not_mem_takeWhile_ne '+' lp
      have hx_pre_lp : x <+: lp := hx_take ▸ List.takeWhile_prefix _
      have hlp_pre_L : lp <+: L := hlp_take ▸ List.takeWhile_prefix _
      have hlp_no_at : '@' ∉ lp := hlp_take ▸ not_mem_takeWhile_ne '@' L
      have hx_no_at : '@' ∉ x := fun hm => hlp_no_at (hx_pre_lp.subset hm)
      have hdom_no_at : '@' ∉ dom := by
        rcases hdom with h | h <;> rw [h] <;> decide
      have hlower : lowerList (x ++ '@' :: dom) = x ++ '@' :: dom := by
        simp only [lowerList, List.map_append, List.map_cons]
        have hx_fix : x.map lowerChar = x :=
          map_id_of_mem _ (fun a ha =>
            mem_prep_lower_fixed hL (hlp_pre_L.subset (hx_pre_lp.subset ha)))
        have hat : lowerChar '@' = '@' := by decide
        have hdom_fix : dom.map lowerChar = dom := by
          rcases hdom with h | h <;> rw [h] <;> decide
        rw [hx_fix, hat, hdom_fix]
      have htrim : trimList (x ++ '@' :: dom) = x ++ '@' :: dom := by
        apply trimList_eq_self
        · intro c hc2
          rcases hx : x with _ | ⟨e, x2⟩
          · rw [hx] at hc2
            simp only [List.nil_append, List.head?_cons, Option.some_inj] at hc2
            rw [← hc2]
            decide
          · rw [hx, List.cons_append, List.head?_cons, Option.some_inj] at hc2
            have hxh : x.head? = some c := by rw [hx, List.head?_cons, hc2]
            have hLh : L.head? = some c :=
              head?_of_starts hlp_pre_L (head?_of_starts hx_pre_lp hxh)
            exact head_prep_not_ws hL hLh
        · intro c hc2
          rw [List.getLast?_append_of_ne_nil x (by simp)] at hc2
          rcases hdom with h | h
          · rw [h] at hc2
            have h2 : ('@' :: "gmail.com".data).getLast? = some 'm' := by decide
            have h4 : c = 'm' := Option.some_inj.mp (hc2.symm.trans h2)
            rw [h4]
            decide
          · rw [h] at hc2
            have h2 : ('@' :: "googlemail.com".data).getLast? = some 'm' := by decide
            have h4 : c = 'm' := Option.some_inj.mp (hc2.symm.trans h2)
            rw [h4]
            decide
      have hprep : prep (x ++ '@' :: dom) = x ++ '@' :: dom := by
        rw [prep, htrim, hlower]
      refine ⟨hprep, ?_⟩
      have hsplit : splitOnChar '@' (x ++ '@' :: dom) = [x, dom] := by
        rw [splitOnChar_append '@' x dom hx_no_at,
          splitOnChar_of_not_mem '@' dom hdom_no_at]
      have hcontains : (x ++ '@' :: dom).contains '@' = true := by
        simp
      rw [normalizeCore]
      rw [if_neg (by rw [hcontains]; simp)]
      rw [hsplit]
      simp only [List.drop_succ_cons, List.drop_zero, List.headD_cons]
      rw [if_pos hdom]
      have hxx : (splitOnChar '+' x).headD [] = x := by
        rw [headD_splitOnChar '+' x, takeWhile_ne_eq_self '+' x hx_no_plus]
      rw [hxx]
    · have h0 : normalizeCore L = L := by rw [normalizeCore, if_neg hc, if_neg hdom]
      rw [h0]
      exact ⟨hL, h0⟩

/-- C6.  The address normalizer is idempotent: for every address
string `a`, `normalizeGmail (normalizeGmail a) = normalizeGmail a`. -/
theorem c6_normalizeGmail_idem (a : String) :
    normalizeGmail (normalizeGmail a) = normalizeGmail a := by
  rw [normalizeGmail, normalizeGmail]
  have hL : prep (lowerList (trimList a.data)) = lowerList (trimList a.data) :=
    prep_idem a.data
  obtain ⟨h1, h2⟩ := normalizeCore_prepped _ hL
  show (⟨normalizeCore (prep (normalizeCore (lowerList (trimList a.data))))⟩ : String) = _
  rw [h1, h2]

/-! ### The normalizer's branch structure (claim C7) -/

/-- C7 counterexample.  The claim reads "for every address with any
other domain [than the two Gmail domains], the normalizer returns only the
trimmed lowercased string with no plus-stripping", with the domain, per
the specification, being everything after the first `@`.  The input
`"a+b@gmail.com@x"` has domain `gmail.com@x`, yet the code both strips
the plus alias and truncates at the second `@`. -/
theorem c7_counterexample :
    normalizeGmail "a+b@gmail.com@x" = "a@gmail.com" ∧
    normSpec "a+b@gmail.com@x" = "a+b@gmail.com@x" ∧
    ("a@gmail.com" : String) ≠ "a+b@gmail.com@x" := by
  decide

/-- C7 (amended).  Writing the trimmed lowercased input as
`localPart ++ '@' :: rest` with `'@' ∉ localPart`, the code's domain is
the segment of `rest` before its first `@` (the second component of the
full `@`-split).  When that segment is `gmail.com` or `googlemail.com`,
the result is the local part truncated at its first `+`, joined to that
segment — discarding anything in `rest` after a second `@`; otherwise
the trimmed lowercased input is returned unchanged.  The claim's two
concrete examples hold. -/
theorem c7_normalizeGmail_branches :
    (∀ (a : String) (localPart rest : List Char),
      lowerList (trimList a.data) = localPart ++ '@' :: rest →
      '@' ∉ localPart →
      normalizeGmail a =
        (if rest.takeWhile (fun c => c ≠ '@') = "gmail.com".data ∨
            rest.takeWhile (fun c => c ≠ '@') = "googlemail.com".data then
          ⟨localPart.takeWhile (fun c => c ≠ '+') ++ '@' ::
            rest.takeWhile (fun c => c ≠ '@')⟩
        else ⟨localPart ++ '@' :: rest⟩)) ∧
    normalizeGmail "User+tag@gmail.com" = normalizeGmail "user@gmail.com" ∧
    normalizeGmail "A+b@example.com" = "a+b@example.com" := by
  refine ⟨?_, by decide, by decide⟩
  intro a localPart rest hdecomp hnoat
  rw [normalizeGmail, hdecomp]
  have hcont : (localPart ++ '@' :: rest).contains '@' = true := by simp
  rw [normalizeCore, if_neg (by rw [hcont]; simp)]
  rw [splitOnChar_append '@' localPart rest hnoat]
  simp only [List.drop_succ_cons, List.drop_zero, List.headD_cons]
  rw [headD_splitOnChar '@' rest, headD_splitOnChar '+' localPart]
  split <;> rfl

/-- Witness for C7: the amended branch description applied at
`"User+tag@gmail.com"`, whose decomposition hypotheses hold by
computation. -/
theorem c7_witness :
    normalizeGmail "User+tag@gmail.com" =
      (if "gmail.com".data.takeWhile (fun c => c ≠ '@') = "gmail.com".data ∨
          "gmail.com".data.takeWhile (fun c => c ≠ '@') = "googlemail.com".data then
        ⟨"user+tag".data.takeWhile (fun c => c ≠ '+') ++ '@' ::
          "gmail.com".data.takeWhile (fun c => c ≠ '@')⟩
      else ⟨"user+tag".data ++ '@' :: "gmail.com".data⟩) :=
  c7_normalizeGmail_branches.1 "User+tag@gmail.com" "user+tag".data
    "gmail.com".data (by decide) (by decide)

/-! ### Latest-message selection (claim C1) -/

theorem insertNewer_ne_nil (a : Msg) (l : List Msg) : insertNewer a l ≠ [] := by
  cases l with
  | nil => simp [insertNewer]
  | cons b rest =>
    rw [insertNewer]
    split <;> simp

theorem sortNewer_eq_nil_iff (l : List Msg) : sortNewer l = [] ↔ l = [] := by
  cases l with
  | nil => simp [sortNewer]
  | cons a rest =>
    simp only [sortNewer, List.foldr_cons]
    exact ⟨fun h => absurd h (insertNewer_ne_nil a _), fun h => by simp at h⟩

/-- C1 counterexample.  The claim says the engine selects the qualifying
summary with the greatest effective timestamp (primary if nonzero, else
parsed fallback, else zero).  Here both summaries qualify; the first
carries a zero primary with a parsed fallback of 100 (effective 100), the
second a primary of 50 (effective 50).  The code selects the second —
the comparator orders by the primary key first and consults the fallback
only on primary ties — and the engine returns its URL. -/
theorem c1_counterexample :
    runEngine "a@b.c" "x" "http" 60 3000 "INBOX"
        (fun _ => [⟨some 0, some 100, some "x", ["a@b.c"], none, none,
            some "http://a/verify1"⟩,
          ⟨some 50, none, some "x", ["a@b.c"], none, none,
            some "http://a/verify2"⟩])
        (fun _ => 10) 0 2 =
      some (.ok "http://a/verify2", 1) ∧
    selectLatest [⟨some 0, some 100, some "x", ["a@b.c"], none, none,
        some "http://a/verify1"⟩,
      ⟨some 50, none, some "x", ["a@b.c"], none, none,
        some "http://a/verify2"⟩] =
      some ⟨some 50, none, some "x", ["a@b.c"], none, none,
        some "http://a/verify2"⟩ ∧
    effTimestamp (⟨some 50, none, some "x", ["a@b.c"], none, none,
        some "http://a/verify2"⟩ : Msg) <
      effTimestamp (⟨some 0, some 100, some "x", ["a@b.c"], none, none,
        some "http://a/verify1"⟩ : Msg) ∧
    qualifies "a@b.c" "x" (⟨some 0, some 100, some "x", ["a@b.c"], none, none,
        some "http://a/verify1"⟩ : Msg) = true := by
  decide

/-- C1 (amended).  The engine selects the earliest-in-input summary
that is maximal under the comparator's lexicographic order — primary key
`internalDateMs ?? 0` first, fallback key `date ?? 0` only on primary
ties (so a zero or absent primary is never bridged by a fallback date
when the primaries differ); ties in both keys are broken in favour of the
earlier position in the input list.  Formally: taking the head of the
stable comparator sort agrees with `firstMax`, the earliest maximum under
the comparator. -/
theorem c1_selectLatest_eq_firstMax (l : List Msg) : selectLatest l = firstMax l := by
  induction l with
  | nil => rfl
  | cons a rest ih =>
    rw [firstMax]
    have hfold : sortNewer (a :: rest) = insertNewer a (sortNewer rest) := rfl
    rw [selectLatest, hfold]
    rcases hs : sortNewer rest with _ | ⟨b, t⟩
    · have hrest : rest = [] := (sortNewer_eq_nil_iff rest).mp hs
      subst hrest
      rfl
    · have hfm : firstMax rest = some b := by
        rw [← ih, selectLatest, hs]
        rfl
      rw [hfm]
      by_cases hn : newer b a
      · rw [insertNewer, if_pos hn]
        simp [hn]
      · rw [insertNewer, if_neg hn]
        simp [hn]

/-! ### Substring test and the candidate predicate (claim C5) -/

/-- JS `String.prototype.includes` agrees with list-infix containment. -/
theorem hasSub_iff (hay needle : List Char) :
    hasSub hay needle = true ↔ needle <:+: hay := by
  rw [hasSub, List.any_eq_true]
  constructor
  · rintro ⟨t, ht, hp⟩
    obtain ⟨s, hs⟩ := (List.mem_tails t hay).mp ht
    obtain ⟨r, hr⟩ : needle <+: t := by simpa using hp
    exact ⟨s, r, by rw [← hs, ← hr, List.append_assoc]⟩
  · rintro ⟨s, r, hsr⟩
    refine ⟨needle ++ r, ?_, by simp⟩
    apply (List.mem_tails _ _).mpr
    exact ⟨s, by rw [← hsr, List.append_assoc]⟩

/-- C5 counterexample.  A summary with an empty `recipientAddresses`
list and raw header `"User+tag@gmail.com"`, matched against the
normalized target `"user@gmail.com"`: the code qualifies it (it splits
the raw header into addresses and normalizes each), but the claim's
predicate does not — the recipient list is empty and the target is not a
substring of the lowercased raw header. -/
theorem c5_counterexample :
    qualifies "user@gmail.com" "x"
        ⟨none, none, some "x", [], some "User+tag@gmail.com", none, none⟩ = true ∧
      qualSpec "user@gmail.com" "x"
        ⟨none, none, some "x", [], some "User+tag@gmail.com", none, none⟩ = false := by
  decide

/-- C5 (amended).  A summary qualifies iff its lowercased subject
contains the subject needle and (the normalized form of its *effective*
recipient list — `toAddresses` when nonempty, otherwise the raw `to`
header split on runs of commas and whitespace — contains the normalized
target, or the lowercased raw header contains the target as a
substring). -/
theorem c5_qualifies_iff (t s : String) (e : Msg) :
    qualifies t s e = true ↔
      (s.data <:+: (lowerStr (e.subject.getD "")).data ∧
        (t ∈ (toAddrsOf e).map normalizeGmail ∨
          t.data <:+: (lowerStr (e.toHeader.getD "")).data)) := by
  rw [qualifies, Bool.and_eq_true, Bool.or_eq_true]
  rw [strIncludes, strIncludes, hasSub_iff, hasSub_iff, List.elem_iff]

/-! ### URL extraction (claim C2) -/

theorem dedupAux_eq_keepFirsts (l seen : List (List Char)) (fuel : Nat)
    (hf : l.length ≤ fuel) :
    dedupAux seen l = keepFirsts fuel (l.filter (fun y => !(seen.contains y))) := by
  induction l generalizing seen fuel with
  | nil => cases fuel <;> rfl
  | cons x rest ih =>
    by_cases hx : x ∈ seen
    · rw [dedupAux, if_pos hx, List.filter_cons_of_neg (by simpa using hx)]
      exact ih seen fuel (le_trans (Nat.le_succ _) hf)
    · rw [dedupAux, if_neg hx, List.filter_cons_of_pos (by simpa using hx)]
      cases fuel with
      | zero => exact absurd hf (by simp)
      | succ f =>
        rw [keepFirsts]
        congr 1
        rw [List.filter_filter]
        have hpred : (fun y => decide (y ≠ x) && !(seen.contains y)) =
            (fun y => !((x :: seen).contains y)) := by
          funext y
          by_cases hyx : y = x <;> simp [hyx]
        rw [hpred, ih (x :: seen) f (by simpa using hf)]

theorem dedupAux_nodup_and (l seen : List (List Char)) :
    (dedupAux seen l).Nodup ∧ ∀ y ∈ dedupAux seen l, y ∉ seen := by
  induction l generalizing seen with
  | nil => simp [dedupAux]
  | cons x rest ih =>
    by_cases hx : x ∈ seen
    · rw [dedupAux, if_pos hx]
      exact ih seen
    · rw [dedupAux, if_neg hx]
      obtain ⟨hnd, hmem⟩ := ih (x :: seen)
      refine ⟨List.nodup_cons.mpr ⟨fun hxin => ?_, hnd⟩, ?_⟩
      · exact (hmem x hxin) (by simp)
      · intro y hy
        rcases List.mem_cons.mp hy with rfl | hy2
        · exact hx
        · intro hys
          exact (hmem y hy2) (by simp [hys])

/-- C2 counterexample.  The claim includes curly quotes in the
trailing-strip set.  The code's regexp neither excludes a curly quote
from a match nor strips it: on `"See http://x.com/a’"` the code keeps the
trailing right curly quote, while the claim's stripping would remove
it. -/
theorem c2_counterexample :
    extractLinks "See http://x.com/a’" = ["http://x.com/a’"] ∧
    extractLinksSpecStrip "See http://x.com/a’" = ["http://x.com/a"] ∧
    ("http://x.com/a’" : String) ≠ "http://x.com/a" := by
  decide

/-- C2 (amended).  The extractor returns the matches of
`\bhttps?:\/\/[^\s<>"')]+` in order of first appearance, each stripped of
its trailing run of `) , . ; ] >` and *straight* quotes only (curly
quotes are neither excluded from a match nor stripped), deduplicated
keeping first occurrences; the output never contains duplicates, and the
claim's concrete example holds, as does the retention of a trailing curly
quote. -/
theorem c2_extractLinks_distinct :
    (∀ s : String, extractLinks s =
        (keepFirsts ((scanLinks s.data.length none s.data).map stripTrail).length
          ((scanLinks s.data.length none s.data).map stripTrail)).map
          (fun l => (⟨l⟩ : String))) ∧
    (∀ s : String, (extractLinks s).Nodup) ∧
    extractLinks "Visit http://x.com/a), and http://x.com/a." = ["http://x.com/a"] ∧
    extractLinks "See http://x.com/a’" = ["http://x.com/a’"] := by
  refine ⟨?_, ?_, by decide, by decide⟩
  · intro s
    rw [extractLinks]
    congr 1
    rw [dedupAux_eq_keepFirsts _ [] _ le_rfl]
    congr 1
    simp
  · intro s
    rw [extractLinks]
    apply List.Nodup.map
    · intro la lb hab
      exact congrArg String.data hab
    · exact (dedupAux_nodup_and _ []).1

/-! ### The poll loop (claims C3, C4, C10) -/

/-- Every error outcome of the poll loop carries exactly the timeout
message built from the configured timeout and the three keyword inputs. -/
theorem runLoop_error_msg (ctx : LoopCtx) :
    ∀ (fuel : Nat) (now : Int) (k : Nat) (m : String) (n : Nat),
      runLoop ctx fuel now k = some (.error m, n) →
      m = timeoutMessage ctx.timeoutSeconds ctx.urlKeyword ctx.recipientEmail
        ctx.subjectKeyword := by
  intro fuel
  induction fuel with
  | zero =>
    intro now k m n h
    rw [runLoop] at h
    split at h
    · simp at h
    · simp at h
      exact h.1.symm
  | succ f ih =>
    intro now k m n h
    rw [runLoop] at h
    split at h
    · rcases hpc : pollCycle ctx.targetRecipient ctx.subjectNeedle ctx.urlNeedle
          (ctx.gw k) with _ | u2
      · rw [hpc] at h
        exact ih _ _ _ _ h
      · rw [hpc] at h
        simp at h
    · simp at h
      exact h.1.symm

/-- Every success outcome of the poll loop is the value of some
successful poll cycle, and the reported query count names that cycle. -/
theorem runLoop_ok_shape (ctx : LoopCtx) :
    ∀ (fuel : Nat) (now : Int) (k : Nat) (url : String) (n : Nat),
      runLoop ctx fuel now k = some (.ok url, n) →
      ∃ j, n = j + 1 ∧
        pollCycle ctx.targetRecipient ctx.subjectNeedle ctx.urlNeedle (ctx.gw j) =
          some url := by
  intro fuel
  induction fuel with
  | zero =>
    intro now k url n h
    rw [runLoop] at h
    split at h <;> simp at h
  | succ f ih =>
    intro now k url n h
    rw [runLoop] at h
    split at h
    · rcases hpc : pollCycle ctx.targetRecipient ctx.subjectNeedle ctx.urlNeedle
          (ctx.gw k) with _ | u2
      · rw [hpc] at h
        exact ih _ _ _ _ h
      · rw [hpc] at h
        simp at h
        exact ⟨k, h.2.symm, by rw [hpc, h.1]⟩
    · simp at h

/-- C3 counterexample.  The claim requires the timeout diagnostic to
include the mailbox.  With mailbox `"INBOX"` the engine times out with a
message that does not contain `"INBOX"`: the thrown message mentions only
the timeout, the URL keyword, the recipient and the subject keyword. -/
theorem c3_counterexample :
    runEngine "a@b.com" "code" "verify" 60 3000 "INBOX" (fun _ => [])
        (fun _ => 100000) 0 2 =
      some (Except.error (timeoutMessage 60 "verify" "a@b.com" "code"), 1) ∧
    hasSub (timeoutMessage 60 "verify" "a@b.com" "code").data "INBOX".data = false := by
  decide

/-- C3 (amended).  When the engine fails with the timeout condition,
the diagnostic message contains the recipient, the subject keyword, the
URL keyword and the configured timeout seconds (the elapsed allowance) —
but not the mailbox, which does not appear in the message. -/
theorem c3_timeout_context (r s u : String) (t p : Int) (mb : String)
    (gw : Nat → List Msg) (dur : Nat → Int) (t0 : Int) (fuel : Nat)
    (m : String) (n : Nat)
    (h : runEngine r s u t p mb gw dur t0 fuel = some (.error m, n)) :
    r.data <:+: m.data ∧ s.data <:+: m.data ∧ u.data <:+: m.data ∧
      (toString t).data <:+: m.data := by
  rw [runEngine] at h
  have hm := runLoop_error_msg _ _ _ _ _ _ h
  dsimp only at hm
  subst hm
  refine ⟨?_, ?_, ?_, ?_⟩
  · exact ⟨("Timed out after " ++ toString t ++ "s: no URL containing \"" ++ u ++
        "\" found for \"").data,
      ("\" with subject containing \"" ++ s ++ "\".").data,
      by simp [timeoutMessage, String.data_append, List.append_assoc]⟩
  · exact ⟨("Timed out after " ++ toString t ++ "s: no URL containing \"" ++ u ++
        "\" found for \"" ++ r ++ "\" with subject containing \"").data,
      ("\".").data,
      by simp [timeoutMessage, String.data_append, List.append_assoc]⟩
  · exact ⟨("Timed out after " ++ toString t ++ "s: no URL containing \"").data,
      ("\" found for \"" ++ r ++ "\" with subject containing \"" ++ s ++ "\".").data,
      by simp [timeoutMessage, String.data_append, List.append_assoc]⟩
  · exact ⟨("Timed out after ").data,
      ("s: no URL containing \"" ++ u ++ "\" found for \"" ++ r ++
        "\" with subject containing \"" ++ s ++ "\".").data,
      by simp [timeoutMessage, String.data_append, List.append_assoc]⟩

/-- Witness for C3: a concrete timed-out run, with the four containment
facts instantiated. -/
theorem c3_witness :
    "a@b.com".data <:+: (timeoutMessage 0 "verify" "a@b.com" "code").data ∧
    "code".data <:+: (timeoutMessage 0 "verify" "a@b.com" "code").data ∧
    "verify".data <:+: (timeoutMessage 0 "verify" "a@b.com" "code").data ∧
    (toString (0 : Int)).data <:+: (timeoutMessage 0 "verify" "a@b.com" "code").data :=
  c3_timeout_context "a@b.com" "code" "verify" 0 500 "INBOX" (fun _ => [])
    (fun _ => 1) 0 1 (timeoutMessage 0 "verify" "a@b.com" "code") 0 (by rfl)

/-- C10.  With a nonpositive timeout the deadline is not after the
entry time, so the loop body never runs: for every fuel (including zero)
the engine immediately returns the timeout error having made zero gateway
queries. -/
theorem c10_nonpositive_timeout (r s u : String) (t p : Int) (mb : String)
    (gw : Nat → List Msg) (dur : Nat → Int) (t0 : Int) (fuel : Nat)
    (ht : t ≤ 0) :
    runEngine r s u t p mb gw dur t0 fuel =
      some (.error (timeoutMessage t u r s), 0) := by
  have hd : ¬ (t0 < t0 + t * 1000) := by omega
  rw [runEngine]
  cases fuel with
  | zero =>
    rw [runLoop]
    exact if_neg hd
  | succ f =>
    rw [runLoop]
    exact if_neg hd

/-- Witness for C10: a zero-second timeout returns the timeout error with
zero gateway queries. -/
theorem c10_witness :
    runEngine "a@b.com" "code" "verify" 0 500 "INBOX" (fun _ => [])
        (fun _ => 1) 5 3 =
      some (.error (timeoutMessage 0 "verify" "a@b.com" "code"), 0) :=
  c10_nonpositive_timeout "a@b.com" "code" "verify" 0 500 "INBOX" (fun _ => [])
    (fun _ => 1) 5 3 (by decide)

/-- C4.  The only way a call succeeds: the success value is produced
by some poll cycle `k` (and the reported query count is `k + 1`), whose
selected candidate's body — `htmlAsText` when nonempty, else `text`, else
the empty string, via `bodyOf` — yields, through `extractLinks`, a first
URL whose lowercased form contains the lowercased URL keyword; that URL
is the returned value. -/
theorem c4_success_shape (r s u : String) (t p : Int) (mb : String)
    (gw : Nat → List Msg) (dur : Nat → Int) (t0 : Int) (fuel : Nat)
    (url : String) (n : Nat)
    (h : runEngine r s u t p mb gw dur t0 fuel = some (.ok url, n)) :
    ∃ k latest, n = k + 1 ∧
      selectLatest ((gw k).filter (qualifies (normalizeGmail r) (lowerStr s))) =
        some latest ∧
      (extractLinks (bodyOf latest)).find?
          (fun v => strIncludes (lowerStr v) (lowerStr u)) = some url := by
  rw [runEngine] at h
  obtain ⟨j, hn, hpc⟩ := runLoop_ok_shape _ _ _ _ _ _ h
  dsimp only at hpc
  rw [pollCycle] at hpc
  rcases hsel : selectLatest ((gw j).filter (qualifies (normalizeGmail r) (lowerStr s)))
    with _ | latest
  · rw [hsel] at hpc
    simp at hpc
  · rw [hsel] at hpc
    exact ⟨j, latest, hn, hsel, hpc⟩

/-- Witness for C4: the end-to-end scenario — one matching message whose
HTML body carries `https://example.com/verify/abc123.`; the call succeeds
in the first cycle with the trailing period stripped. -/
theorem c4_witness :
    ∃ k latest, (1 : Nat) = k + 1 ∧
      selectLatest (((fun _ : Nat => [(⟨some 1, none, some "Please verify",
            ["jane@gmail.com"], none, none,
            some "confirm here: https://example.com/verify/abc123."⟩ : Msg)]) k).filter
          (qualifies (normalizeGmail "Jane+test@gmail.com") (lowerStr "verify"))) =
        some latest ∧
      (extractLinks (bodyOf latest)).find?
          (fun v => strIncludes (lowerStr v) (lowerStr "verify")) =
        some "https://example.com/verify/abc123" :=
  c4_success_shape "Jane+test@gmail.com" "verify" "verify" 60 3000 "INBOX"
    (fun _ => [⟨some 1, none, some "Please verify", ["jane@gmail.com"], none, none,
      some "confirm here: https://example.com/verify/abc123."⟩])
    (fun _ => 10) 0 2 "https://example.com/verify/abc123" 1 (by decide)

/-! ### The gateway (claims C8, C9) -/

/-- C8.  The degraded-search fallback inside the gateway: if the
requested search returns zero UIDs and a time-window lower bound was
supplied, the gateway retries without the time window (keeping the
unread-only constraint) and uses that result when nonempty; if the result
is still empty and the unread-only flag was set, it retries without the
unread-only constraint and uses that result when nonempty. -/
theorem c8_gateway_fallback (search : SearchQuery → List Nat) (unreadOnly : Bool)
    (sinceDate : Option Int) :
    (search ⟨unreadOnly, sinceDate⟩ = [] → sinceDate ≠ none →
      search ⟨unreadOnly, none⟩ ≠ [] →
      searchWithRetries search unreadOnly sinceDate = search ⟨unreadOnly, none⟩) ∧
    (search ⟨unreadOnly, sinceDate⟩ = [] → search ⟨unreadOnly, none⟩ = [] →
      unreadOnly = true → search ⟨false, none⟩ ≠ [] →
      searchWithRetries search unreadOnly sinceDate = search ⟨false, none⟩) := by
  constructor
  · intro h1 h2 h3
    rcases sinceDate with _ | d
    · exact absurd rfl h2
    · have h3e : (search ⟨unreadOnly, none⟩).isEmpty = false := by
        rcases hh : search ⟨unreadOnly, none⟩ with _ | ⟨a, b⟩
        · exact absurd hh h3
        · rfl
      simp [searchWithRetries, h1, h3e]
  · intro h1 h2 h3 h4
    subst h3
    have h4e : (search ⟨false, none⟩).isEmpty = false := by
      rcases hh : search ⟨false, none⟩ with _ | ⟨a, b⟩
      · exact absurd hh h4
      · rfl
    rcases sinceDate with _ | d
    · simp [searchWithRetries, h1, h2, h4e]
    · simp [searchWithRetries, h1, h2, h4e]

/-- Witness for C8: a server that hides everything behind a `since`
filter is found by the first retry; a server that hides everything behind
the unseen flag is found by the second retry. -/
theorem c8_witness :
    searchWithRetries (fun q => if q.since.isSome then [] else [7]) false (some 5) =
      (fun q : SearchQuery => if q.since.isSome then [] else [7]) ⟨false, none⟩ ∧
    searchWithRetries (fun q => if q.unseen then [] else [9]) true none =
      (fun q : SearchQuery => if q.unseen then [] else [9]) ⟨false, none⟩ :=
  ⟨(c8_gateway_fallback (fun q => if q.since.isSome then [] else [7]) false
        (some 5)).1 (by decide) (by decide) (by decide),
    (c8_gateway_fallback (fun q => if q.unseen then [] else [9]) true none).2
      (by decide) (by decide) rfl (by decide)⟩

/-- C9.  A processing failure on one message does not abort the
query: the gateway's collection loop produces exactly what it would
produce were the failing message absent — every remaining message is
still processed, and the failing message consumes no result slot. -/
theorem c9_skip_bad (α β ε : Type) (proc : α → Except ε (Option β)) (limit : Nat)
    (pre post : List α) (bad : α) (msg : ε) (hbad : proc bad = .error msg) :
    collectResults proc limit (pre ++ bad :: post) =
      collectResults proc limit (pre ++ post) := by
  induction pre generalizing limit with
  | nil =>
    simp only [List.nil_append]
    rw [collectResults, hbad]
  | cons p pre2 ih =>
    simp only [List.cons_append]
    rw [collectResults, collectResults]
    rcases hp : proc p with e | o
    · exact ih limit
    · rcases o with _ | v
      · exact ih limit
      · dsimp only
        by_cases hl : limit ≤ 1
        · rw [if_pos hl, if_pos hl]
        · rw [if_neg hl, if_neg hl, ih (limit - 1)]

/-- Witness for C9: UID 3 fails to process; the results over
`[1, 2, 3, 4]` equal the results over `[1, 2, 4]`. -/
theorem c9_witness :
    collectResults (fun n => if n = 3 then Except.error "boom" else Except.ok (some n))
        10 [1, 2, 3, 4] =
      collectResults (fun n => if n = 3 then Except.error "boom" else Except.ok (some n))
        10 [1, 2, 4] :=
  c9_skip_bad Nat Nat String
    (fun n => if n = 3 then Except.error "boom" else Except.ok (some n))
    10 [1, 2] [4] 3 "boom" (by decide)

end GmailFetch
